import Mathlib

/-
Shallow embedding of the fixed-capacity circular buffer from
`src/ringbuffer.hpp` (single-threaded variant, namespace `ringbuffer`) and
`src/atomic_ringbuffer.hpp` (concurrent variant, namespace
`datum::utility`).

Modelling conventions:
- The raw pointer cursors `writepos`/`readpos` of the C++ class are
  represented as indices into the backing array; the sentinel `first`
  corresponds to index `0` and `last` to index `N - 1`.
- The backing `std::array<T, N>` is a `List α` of length `N`; a slot whose
  element has been destroyed keeps its stale value, exactly as the raw
  storage does in the C++ object.
- `std::size_t` values are `Nat`; the one place where the C++ code can
  underflow a `size_t` (the post-decrement `available--` in the bulk-read
  loop) is modelled with an explicit wraparound modulo `2 ^ 64`.
- `throw std::out_of_range (msg)` is modelled as `Except.error msg`; an
  operation that can throw returns its post-state alongside the result, and
  the translation of each throwing branch returns the state unchanged
  because the C++ code throws before mutating in those branches.
-/

namespace RingbufferModel

/-- The modulus of `std::size_t` on the reference LP64 platform. -/
def SIZE_MOD : Nat := 2 ^ 64

/-- The value of a `size_t` variable after the post-decrement `x--`:
the predecessor, wrapping around to `2 ^ 64 - 1` when `x = 0`. -/
def sizetPred (x : Nat) : Nat := (x + (SIZE_MOD - 1)) % SIZE_MOD

/-- State of `ringbuffer::ringbuffer<N, T>` (src/ringbuffer.hpp:72-90):
the backing array `buff` (whose length is the template parameter `N`),
the write cursor, the read cursor and the occupied count `available`.
The `first`/`last` sentinels are the constants `0` and `buff.length - 1`. -/
structure Ringbuffer (α : Type) where
  buff : List α
  writepos : Nat
  readpos : Nat
  available : Nat
  deriving Repr, DecidableEq

/-- The capacity `N` of the buffer (the length of the backing array). -/
def Ringbuffer.cap (b : Ringbuffer α) : Nat := b.buff.length

/-- `wrapfront` (src/ringbuffer.hpp:94-104, identical at
src/atomic_ringbuffer.hpp:183-193): advance cursor `p` by `n` with modular
wraparound, written index-wise with `first = 0`, `last = N - 1`:
`if (n > N) n = n % N; if (p + n > last) return first + (n - 1 - (last - p));
else return p + n;`. -/
def wrapfront (N p n : Nat) : Nat :=
  let m := if n > N then n % N else n
  if p + m > N - 1 then m - 1 - (N - 1 - p) else p + m

/-- The freshly constructed buffer (src/ringbuffer.hpp:167-174): all `N`
slots default-constructed, both cursors at `first`, count zero. -/
def mkRingbuffer (α : Type) [Inhabited α] (N : Nat) : Ringbuffer α :=
  ⟨List.replicate N default, 0, 0, 0⟩

/-- `size()` (src/ringbuffer.hpp:184-187): returns `available`. A `const
noexcept` member, so it is a pure function of the state. -/
def size (b : Ringbuffer α) : Nat := b.available

/-- `capacity()` (src/ringbuffer.hpp:195-198): returns `N - available` in
`size_t` arithmetic. A `const noexcept` member, so a pure function. -/
def capacity (b : Ringbuffer α) : Nat :=
  (SIZE_MOD + b.cap - b.available % SIZE_MOD) % SIZE_MOD

/-- `emplace` (src/ringbuffer.hpp:216-223): if `available < N`, construct
the new element at `writepos`, advance `writepos` by one via `wrapfront`,
and increment `available`; otherwise do nothing. -/
def emplace (b : Ringbuffer α) (x : α) : Ringbuffer α :=
  if b.available < b.cap then
    { b with buff := b.buff.set b.writepos x,
             writepos := wrapfront b.cap b.writepos 1,
             available := b.available + 1 }
  else b

/-- `pop` (src/ringbuffer.hpp:247-254): if `available` is nonzero, destroy
the element at `readpos` (the slot keeps its stale value), advance
`readpos` by one, decrement `available`; otherwise do nothing. -/
def pop (b : Ringbuffer α) : Ringbuffer α :=
  if b.available ≠ 0 then
    { b with readpos := wrapfront b.cap b.readpos 1,
             available := b.available - 1 }
  else b

/-- `front` (src/ringbuffer.hpp:269-277): if nonempty return a copy of the
element at `readpos`, else throw `std::out_of_range`. A non-mutating
member. -/
def front [Inhabited α] (b : Ringbuffer α) : Except String α :=
  if b.available ≠ 0 then Except.ok (b.buff.getD b.readpos default)
  else Except.error "cannot access first of empty ringbuffer"

/-- Single-element `read` (src/ringbuffer.hpp:292-302): if nonempty,
decrement `available`, capture the element at `readpos`, advance `readpos`,
and return the captured element; else throw (leaving the state unchanged,
as the throw happens before any mutation). -/
def read1 [Inhabited α] (b : Ringbuffer α) : Except String α × Ringbuffer α :=
  if b.available ≠ 0 then
    (Except.ok (b.buff.getD b.readpos default),
     { b with readpos := wrapfront b.cap b.readpos 1,
              available := b.available - 1 })
  else (Except.error "invalid read on empty ringbuffer", b)

/-- The loop `while (available-- > cap) { auto deref = readpos; readpos =
wrapfront (readpos); result.emplace_back (*deref); }` of the bulk `read`
(src/ringbuffer.hpp:330-335). The `size_t` post-decrement in the loop
condition happens even on the exiting test, so on exit `available` is the
wrapped predecessor of the guard value: `a` when entering the test with
`a + 1`, and `2 ^ 64 - 1` (i.e. `sizetPred 0`) when entering with `0`.
Returns the accumulated output, the final `readpos` and the final
`available`. -/
def readWhile [Inhabited α] (N : Nat) (buff : List α) (c : Nat) :
    Nat → Nat → List α → List α × Nat × Nat
  | 0, rp, acc => (acc, rp, sizetPred 0)
  | a + 1, rp, acc =>
    if a + 1 > c then
      readWhile N buff c a (wrapfront N rp 1) (acc ++ [buff.getD rp default])
    else (acc, rp, a)

/-- Bulk `read(n)` (src/ringbuffer.hpp:325-341): if `n <= available`, set
`cap = available - n`, run the capture-and-advance loop, and return the
collected elements; else throw `std::out_of_range` with no state change. -/
def readN [Inhabited α] (b : Ringbuffer α) (n : Nat) :
    Except String (List α) × Ringbuffer α :=
  if n ≤ b.available then
    let r := readWhile b.cap b.buff (b.available - n) b.available b.readpos []
    (Except.ok r.1, { b with readpos := r.2.1, available := r.2.2 })
  else (Except.error "cannot read more than available elements", b)

/-- `temporary_copy` (src/ringbuffer.hpp:109-149): clamp `n` to
`available`; if `readpos + n <= last` copy the contiguous span of `n`
elements starting at `readpos`; otherwise, with `m = last - readpos`, copy
`m + 1` elements starting at `readpos` and then insert `n - m + 1` elements
taken from the start of the storage at the *front* of the vector, so the
result is the second segment followed by the first. -/
def temporary_copy (b : Ringbuffer α) (n0 : Nat) : List α :=
  let n := min n0 b.available
  if b.readpos + n ≤ b.cap - 1 then
    (b.buff.drop b.readpos).take n
  else
    let m := b.cap - 1 - b.readpos
    let firstSeg := (b.buff.drop b.readpos).take (m + 1)
    let secondSeg := b.buff.take (n - m + 1)
    secondSeg ++ firstSeg

/-- `safe_read(n)` (src/ringbuffer.hpp:405-422): if `n <= available`, build
the result by moving the elements of `temporary_copy (n)` into the output
container in order, then decrement `available` by `n` and advance `readpos`
by `n` via `wrapfront`; else throw with no state change. -/
def safe_read (b : Ringbuffer α) (n : Nat) :
    Except String (List α) × Ringbuffer α :=
  if n ≤ b.available then
    (Except.ok (temporary_copy b n),
     { b with readpos := wrapfront b.cap b.readpos n,
              available := b.available - n })
  else (Except.error "cannot read more than available elements", b)

/-- `read_all` (src/ringbuffer.hpp:478-482): `read (available)`. -/
def read_all [Inhabited α] (b : Ringbuffer α) :
    Except String (List α) × Ringbuffer α :=
  readN b b.available

/-- `safe_read_all` (src/ringbuffer.hpp:502-506): `safe_read (available)`. -/
def safe_read_all (b : Ringbuffer α) :
    Except String (List α) × Ringbuffer α :=
  safe_read b b.available

/-- The loop `while (m--) { readpos->~T(); readpos = wrapfront (readpos);
available -= 1; }` of `erase` (src/ringbuffer.hpp:533-537); the local `m`
starts at `min (n, available)` so the body runs exactly that many times. -/
def eraseLoop (N : Nat) : Nat → Nat → Nat → Nat × Nat
  | 0, rp, avail => (rp, avail)
  | m + 1, rp, avail => eraseLoop N m (wrapfront N rp 1) (avail - 1)

/-- `erase(n)` (src/ringbuffer.hpp:530-538): destroy `min (n, available)`
elements from the front, advancing `readpos` and decrementing `available`
once per element. -/
def erase (b : Ringbuffer α) (n : Nat) : Ringbuffer α :=
  let r := eraseLoop b.cap (min n b.available) b.readpos b.available
  { b with readpos := r.1, available := r.2 }

/-- `clear` (src/ringbuffer.hpp:561-564): `erase (available)`. -/
def clear (b : Ringbuffer α) : Ringbuffer α :=
  erase b b.available

/-- Fold inserting a list of elements left to right with `emplace`. -/
def emplaceAll (b : Ringbuffer α) (l : List α) : Ringbuffer α :=
  l.foldl emplace b

/-- The sequence of `n` live elements starting at cursor `rp`, oldest
first, advancing one slot at a time with `wrapfront` (the order in which
the bulk-read loop captures elements). -/
def ringRead [Inhabited α] (N : Nat) (buff : List α) : Nat → Nat → List α
  | _, 0 => []
  | rp, k + 1 => buff.getD rp default :: ringRead N buff (wrapfront N rp 1) k

/-
Concurrent variant, `datum::utility::ringbuffer` of
src/atomic_ringbuffer.hpp. Its cursor arithmetic and per-operation
algorithms are textually those of src/ringbuffer.hpp, so the state
transformations reuse the definitions above; what is new is the
`detail::rw_mutex` (src/atomic_ringbuffer.hpp:79-159) wrapped around every
operation. We model the lock protocol for a single caller with no other
thread running: the mutex is a `Bool` (`true` = the `std::mutex mut` is
locked), and an acquisition that can never succeed in that setting (a
blocking `mut.lock()` while `mut` is already held, with nobody left to
release it) yields `none`.
-/

/-- `rw_mutex::writer` / `write_lock` (src/atomic_ringbuffer.hpp:132-136):
`while (!mut.try_lock()) continue;`. For a single caller with no other
thread, this completes iff `mut` is currently free, and leaves it held. -/
def writerAcquire (held : Bool) : Option Bool :=
  if held then none else some true

/-- `rw_mutex::reader` / `read_lock` (src/atomic_ringbuffer.hpp:119-124):
`mut.lock (); readers += 1; mut.unlock ();`. For a single caller with no
other thread, the blocking `lock()` completes iff `mut` is currently free;
the mutex is released again before returning. -/
def readerAcquire (held : Bool) : Option Bool :=
  if held then none else some false

/-- `datum::utility::ringbuffer::temporary_copy`
(src/atomic_ringbuffer.hpp:201-244): acquires a reader section on `rwlock`
and then performs the same two-segment copy as the single-threaded
`temporary_copy`. `held` is the state of `rwlock`'s internal mutex at the
call. -/
def atomic_temporary_copy (held : Bool) (b : Ringbuffer α) (n : Nat) :
    Option (List α) :=
  (readerAcquire held).map fun _ => temporary_copy b n

/-- `datum::utility::ringbuffer::emplace`
(src/atomic_ringbuffer.hpp:311-319): writer section around the same body as
the single-threaded `emplace`; the single caller starts with the mutex
free. -/
def atomicEmplace (b : Ringbuffer α) (x : α) : Option (Ringbuffer α) :=
  (writerAcquire false).map fun _ => emplace b x

/-- `datum::utility::ringbuffer::pop` (src/atomic_ringbuffer.hpp:343-351):
writer section around the single-threaded `pop` body. -/
def atomicPop (b : Ringbuffer α) : Option (Ringbuffer α) :=
  (writerAcquire false).map fun _ => pop b

/-- `datum::utility::ringbuffer::front`
(src/atomic_ringbuffer.hpp:366-375): reader section around the
single-threaded `front` body. -/
def atomicFront [Inhabited α] (b : Ringbuffer α) : Option (Except String α) :=
  (readerAcquire false).map fun _ => front b

/-- `datum::utility::ringbuffer::read` (single element,
src/atomic_ringbuffer.hpp:390-401): writer section around the
single-threaded `read` body. -/
def atomicRead1 [Inhabited α] (b : Ringbuffer α) :
    Option (Except String α × Ringbuffer α) :=
  (writerAcquire false).map fun _ => read1 b

/-- `datum::utility::ringbuffer::read(n)`
(src/atomic_ringbuffer.hpp:424-441): writer section around the
single-threaded bulk `read` body (same guard, same
`while (available-- > cap)` loop). -/
def atomicReadN [Inhabited α] (b : Ringbuffer α) (n : Nat) :
    Option (Except String (List α) × Ringbuffer α) :=
  (writerAcquire false).map fun _ => readN b n

/-- `datum::utility::ringbuffer::safe_read(n)`
(src/atomic_ringbuffer.hpp:506-524): acquires a writer section (holding
`mut` for the whole call), and if `n <= available` calls `temporary_copy`,
which opens a reader section on the same `rwlock` while `mut` is still
held; afterwards `available -= n` and `readpos` advances by `n`. -/
def atomicSafeRead (b : Ringbuffer α) (n : Nat) :
    Option (Except String (List α) × Ringbuffer α) :=
  match writerAcquire false with
  | none => none
  | some held =>
    if n ≤ b.available then
      match atomic_temporary_copy held b n with
      | none => none
      | some tmp =>
        some (Except.ok tmp,
              { b with readpos := wrapfront b.cap b.readpos n,
                       available := b.available - n })
    else some (Except.error "cannot read more than available elements", b)

/-- `datum::utility::ringbuffer::erase`
(src/atomic_ringbuffer.hpp:633-642): writer section around the
single-threaded `erase` body. -/
def atomicErase (b : Ringbuffer α) (n : Nat) : Option (Ringbuffer α) :=
  (writerAcquire false).map fun _ => erase b n

/-- `datum::utility::ringbuffer::clear`
(src/atomic_ringbuffer.hpp:665-668): calls `erase (available)`, which takes
the writer section. -/
def atomicClear (b : Ringbuffer α) : Option (Ringbuffer α) :=
  atomicErase b b.available

/-- `wrapfront` computes plain modular advancement: for a valid cursor
`p < N`, the reflection around the `last` sentinel equals `(p + n) % N`. -/
theorem wrapfront_eq_mod (N p n : Nat) (hp : p < N) :
    wrapfront N p n = (p + n) % N := by
  have hN : 0 < N := Nat.lt_of_le_of_lt (Nat.zero_le p) hp
  have main : ∀ m : Nat, m ≤ N → (p + m) % N = (p + n) % N →
      (if p + m > N - 1 then m - 1 - (N - 1 - p) else p + m) = (p + n) % N := by
    intro m hmN hmod
    by_cases hb : p + m > N - 1
    · rw [if_pos hb, ← hmod]
      have h1 : N ≤ p + m := by omega
      have h3 : (p + m) % N = p + m - N := by
        rw [Nat.mod_eq_sub_mod h1]
        exact Nat.mod_eq_of_lt (by omega)
      omega
    · rw [if_neg hb, ← hmod]
      exact (Nat.mod_eq_of_lt (by omega)).symm
  by_cases h : n > N
  · have hw : wrapfront N p n
        = if p + n % N > N - 1 then n % N - 1 - (N - 1 - p) else p + n % N := by
      simp [wrapfront, h]
    rw [hw]
    exact main (n % N) (Nat.le_of_lt (Nat.mod_lt _ hN))
      (Nat.ModEq.add_left p (Nat.mod_modEq n N))
  · have hw : wrapfront N p n
        = if p + n > N - 1 then n - 1 - (N - 1 - p) else p + n := by
      simp [wrapfront, h]
    rw [hw]
    exact main n (by omega) rfl

/-- Setting a list element in bounds and reading it back with `getD`
returns the written element. -/
theorem getD_set_self : ∀ (l : List α) (i : Nat) (x d : α),
    i < l.length → (l.set i x).getD i d = x
  | _ :: _, 0, _, _, _ => rfl
  | _ :: t, i + 1, x, d, h => getD_set_self t i x d (by simpa using h)
  | [], _, _, _, h => absurd h (by simp)

/-- The elements collected by the bulk-read loop: entering with
`available = cap + k`, the loop body runs exactly `k` times and appends the
`k` elements starting at the read cursor, oldest first. -/
theorem readWhile_fst [Inhabited α] (N : Nat) (buff : List α) (c : Nat) :
    ∀ (k rp : Nat) (acc : List α),
      (readWhile N buff c (c + k) rp acc).1 = acc ++ ringRead N buff rp k := by
  intro k
  induction k with
  | zero =>
    intro rp acc
    cases c with
    | zero => simp [readWhile, ringRead]
    | succ a => simp [readWhile, ringRead]
  | succ k ih =>
    intro rp acc
    have hc : c + (k + 1) = (c + k) + 1 := rfl
    rw [hc]
    rw [readWhile, if_pos (by omega : c + k + 1 > c)]
    rw [ih]
    simp [ringRead]

/-- The result value of a successful bulk `read(n)`: the `n` elements
starting at the read cursor, oldest first. -/
theorem readN_fst [Inhabited α] (b : Ringbuffer α) (n : Nat)
    (h : n ≤ b.available) :
    (readN b n).1 = Except.ok (ringRead b.cap b.buff b.readpos n) := by
  have hsplit : b.available - n + n = b.available := Nat.sub_add_cancel h
  have hw := readWhile_fst b.cap b.buff (b.available - n) n b.readpos []
  rw [hsplit] at hw
  simp only [readN, if_pos h, hw, List.nil_append]

/-- The count left behind by the bulk-read loop: because the `size_t`
post-decrement in the loop condition also fires on the exiting test, the
loop leaves `available = cap - 1` (wrapping to `2 ^ 64 - 1` when
`cap = 0`), one less than the `cap = available - n` the guard computed. -/
theorem readWhile_count [Inhabited α] (N : Nat) (buff : List α) (c : Nat) :
    ∀ (k rp : Nat) (acc : List α),
      (readWhile N buff c (c + k) rp acc).2.2
          = if c = 0 then sizetPred 0 else c - 1 := by
  intro k
  induction k with
  | zero =>
    intro rp acc
    cases c with
    | zero => simp [readWhile]
    | succ a => simp [readWhile]
  | succ k ih =>
    intro rp acc
    have hc : c + (k + 1) = (c + k) + 1 := rfl
    rw [hc]
    rw [readWhile, if_pos (by omega : c + k + 1 > c)]
    exact ih _ _

/-- When the `k` slots starting at `rp` do not wrap past the end of the
storage, the capture-and-advance order is the contiguous slice. -/
theorem ringRead_no_wrap [Inhabited α] (buff : List α) :
    ∀ (k rp : Nat), rp + k ≤ buff.length →
      ringRead buff.length buff rp k = (buff.drop rp).take k := by
  intro k
  induction k with
  | zero => intro rp h; simp [ringRead]
  | succ k ih =>
    intro rp h
    have hrp : rp < buff.length := by omega
    rw [ringRead]
    have hget : buff.getD rp default = buff[rp] := by
      rw [List.getD_eq_getElem?_getD, List.getElem?_eq_getElem hrp]
      rfl
    by_cases hlast : rp + 1 = buff.length
    · have hk : k = 0 := by omega
      subst hk
      rw [ringRead, hget, List.drop_eq_getElem_cons hrp, List.take_succ_cons,
        List.take_zero]
    · have h1 : rp + 1 < buff.length := by omega
      have hwf : wrapfront buff.length rp 1 = rp + 1 := by
        rw [wrapfront_eq_mod _ _ _ hrp]
        exact Nat.mod_eq_of_lt h1
      rw [hwf, ih (rp + 1) (by omega), hget,
        List.drop_eq_getElem_cons hrp, List.take_succ_cons]

/-- Setting the slot just past a prefix writes into the head of the
suffix. -/
theorem set_append_length : ∀ (l₁ l₂ : List α) (x : α),
    (l₁ ++ l₂).set l₁.length x = l₁ ++ l₂.set 0 x
  | [], _, _ => rfl
  | a :: t, l₂, x => by
    simp only [List.cons_append, List.length_cons, List.set_cons_succ,
      set_append_length t l₂ x]

/-- Filling a fresh buffer left to right: after `emplace`-ing the elements
of `suf` into a buffer whose storage holds the already-inserted prefix
`pre` followed by default-constructed slots, the storage holds `pre ++ suf`
in order, the read cursor is still at `first`, and the count is the total
number of insertions. -/
theorem emplaceAll_fields [Inhabited α] :
    ∀ (suf pre : List α) (wp : Nat), (suf ≠ [] → wp = pre.length) →
      (emplaceAll
          (⟨pre ++ List.replicate suf.length default, wp, 0, pre.length⟩ :
            Ringbuffer α) suf).buff = pre ++ suf ∧
      (emplaceAll
          (⟨pre ++ List.replicate suf.length default, wp, 0, pre.length⟩ :
            Ringbuffer α) suf).readpos = 0 ∧
      (emplaceAll
          (⟨pre ++ List.replicate suf.length default, wp, 0, pre.length⟩ :
            Ringbuffer α) suf).available = pre.length + suf.length := by
  intro suf
  induction suf with
  | nil => intro pre wp _; simp [emplaceAll]
  | cons x rest ih =>
    intro pre wp h
    have hwp : wp = pre.length := h (by simp)
    subst hwp
    have hcap :
        (⟨pre ++ List.replicate (x :: rest).length default, pre.length, 0,
          pre.length⟩ : Ringbuffer α).cap
        = pre.length + (rest.length + 1) := by
      simp [Ringbuffer.cap]
    have hlt : pre.length < pre.length + (rest.length + 1) := by omega
    have hstep :
        emplace
          (⟨pre ++ List.replicate (x :: rest).length default, pre.length, 0,
            pre.length⟩ : Ringbuffer α) x
        = (⟨(pre ++ [x]) ++ List.replicate rest.length default,
            wrapfront (pre.length + (rest.length + 1)) pre.length 1, 0,
            (pre ++ [x]).length⟩ : Ringbuffer α) := by
      unfold emplace
      rw [if_pos (by simp [Ringbuffer.cap])]
      rw [hcap]
      simp only [List.length_cons, List.replicate_succ, set_append_length,
        List.set_cons_zero]
      simp [List.append_assoc]
    have hnext : rest ≠ [] →
        wrapfront (pre.length + (rest.length + 1)) pre.length 1
          = (pre ++ [x]).length := by
      intro hne
      have hr : 1 ≤ rest.length := by
        cases rest with
        | nil => exact absurd rfl hne
        | cons _ _ => simp
      rw [wrapfront_eq_mod _ _ _ hlt, Nat.mod_eq_of_lt (by omega)]
      simp
    have happly := ih (pre ++ [x])
      (wrapfront (pre.length + (rest.length + 1)) pre.length 1) hnext
    have hform :
        emplaceAll
          (⟨pre ++ List.replicate (x :: rest).length default, pre.length, 0,
            pre.length⟩ : Ringbuffer α) (x :: rest)
        = emplaceAll
            (⟨(pre ++ [x]) ++ List.replicate rest.length default,
              wrapfront (pre.length + (rest.length + 1)) pre.length 1, 0,
              (pre ++ [x]).length⟩ : Ringbuffer α) rest := by
      show emplaceAll
          (emplace
            (⟨pre ++ List.replicate (x :: rest).length default, pre.length, 0,
              pre.length⟩ : Ringbuffer α) x) rest = _
      rw [hstep]
    rw [hform]
    refine ⟨?_, ?_, ?_⟩
    · rw [happly.1]
      simp [List.append_assoc]
    · exact happly.2.1
    · rw [happly.2.2]
      simp
      omega

/-- C6: for every valid cursor position `p < N`, `wrapfront` advances `n`
as the claim states: `n` is first reduced modulo the capacity when it
exceeds it (`wrapfront N p n = wrapfront N p (n % N)` for `n > N`),
advancing by `0` returns `p` unchanged, advancing by `N` also returns `p`
(full wraparound is a no-op), and in general the reflection formula
`first + (n - 1 - (last - p))` / `p + n` computes `(p + n) % N`. -/
theorem wrapfront_advance_spec (N p n : Nat) (hp : p < N) :
    wrapfront N p 0 = p ∧
    wrapfront N p N = p ∧
    (n > N → wrapfront N p n = wrapfront N p (n % N)) ∧
    wrapfront N p n = (p + n) % N := by
  have hN : 0 < N := Nat.lt_of_le_of_lt (Nat.zero_le p) hp
  refine ⟨?_, ?_, ?_, wrapfront_eq_mod N p n hp⟩
  · rw [wrapfront_eq_mod N p 0 hp, Nat.add_zero]
    exact Nat.mod_eq_of_lt hp
  · rw [wrapfront_eq_mod N p N hp, Nat.add_mod_right]
    exact Nat.mod_eq_of_lt hp
  · intro _
    rw [wrapfront_eq_mod N p n hp, wrapfront_eq_mod N p (n % N) hp]
    exact (Nat.ModEq.add_left p (Nat.mod_modEq n N)).symm

/-- Witness for C6 at `N = 8`, `p = 3`, `n = 11`. -/
theorem wrapfront_advance_spec_witness :
    wrapfront 8 3 0 = 3 ∧ wrapfront 8 3 8 = 3 ∧
    wrapfront 8 3 11 = wrapfront 8 3 (11 % 8) ∧
    wrapfront 8 3 11 = (3 + 11) % 8 :=
  ⟨(wrapfront_advance_spec 8 3 11 (by decide)).1,
   (wrapfront_advance_spec 8 3 11 (by decide)).2.1,
   (wrapfront_advance_spec 8 3 11 (by decide)).2.2.1 (by decide),
   (wrapfront_advance_spec 8 3 11 (by decide)).2.2.2⟩

/-- C5: for a buffer whose write cursor is a valid storage position, if
`available < capacity` then `emplace` writes the new element at the write
cursor, advances the write cursor by exactly one position via the
wraparound advance (equivalently, by `+1` mod capacity), increments the
count by one, and leaves the read cursor and the capacity unchanged; if
`available = capacity` it returns the state completely unchanged. -/
theorem emplace_spec {α : Type} [Inhabited α] (b : Ringbuffer α) (x : α)
    (hw : b.writepos < b.cap) :
    (b.available < b.cap →
      (emplace b x).buff.getD b.writepos default = x ∧
      (emplace b x).writepos = wrapfront b.cap b.writepos 1 ∧
      (emplace b x).writepos = (b.writepos + 1) % b.cap ∧
      (emplace b x).available = b.available + 1 ∧
      (emplace b x).readpos = b.readpos ∧
      (emplace b x).cap = b.cap) ∧
    (b.available = b.cap → emplace b x = b) := by
  constructor
  · intro h
    rw [emplace, if_pos h]
    refine ⟨getD_set_self _ _ _ _ hw, rfl, ?_, rfl, rfl, ?_⟩
    · exact wrapfront_eq_mod _ _ _ hw
    · simp [Ringbuffer.cap]
  · intro h
    rw [emplace, if_neg (by omega)]

/-- Witness for C5 on an empty capacity-2 buffer. -/
theorem emplace_spec_witness :
    (emplace (mkRingbuffer Nat 2) 7).buff.getD 0 default = 7 ∧
    (emplace (mkRingbuffer Nat 2) 7).available = 1 ∧
    (emplace (mkRingbuffer Nat 2) 7).readpos = 0 :=
  ⟨((emplace_spec (mkRingbuffer Nat 2) 7 (by decide)).1 (by decide)).1,
   ((emplace_spec (mkRingbuffer Nat 2) 7 (by decide)).1 (by decide)).2.2.2.1,
   ((emplace_spec (mkRingbuffer Nat 2) 7 (by decide)).1 (by decide)).2.2.2.2.1⟩

/-- C10: consuming operations (`pop`, `read`, `read(n)`, `safe_read(n)`,
`erase(n)`, `clear`) never modify the write cursor, and `emplace` never
modifies the read cursor. (`size` and `capacity` are `const noexcept`
members and are modelled as pure functions of the state, so they modify no
field by construction.) -/
theorem frame_spec {α : Type} [Inhabited α] (b : Ringbuffer α) (n : Nat)
    (x : α) :
    (pop b).writepos = b.writepos ∧
    (read1 b).2.writepos = b.writepos ∧
    (readN b n).2.writepos = b.writepos ∧
    (safe_read b n).2.writepos = b.writepos ∧
    (erase b n).writepos = b.writepos ∧
    (clear b).writepos = b.writepos ∧
    (emplace b x).readpos = b.readpos := by
  refine ⟨?_, ?_, ?_, ?_, rfl, rfl, ?_⟩
  · unfold pop; split <;> rfl
  · unfold read1; split <;> rfl
  · unfold readN; split <;> rfl
  · unfold safe_read; split <;> rfl
  · unfold emplace; split <;> rfl

/-- C4 counterexample: the claim requires the out-of-range failure message
to distinguish which operation failed, but an under-populated `read(n)` and
an under-populated `safe_read(n)` fail with the *identical* message
`"cannot read more than available elements"`, so the message does not
distinguish them: concretely, on an empty capacity-2 buffer with `n = 1`
both failures carry the same string. -/
theorem read_failure_message_shared :
    (readN (mkRingbuffer Nat 2) 1).1
        = Except.error "cannot read more than available elements" ∧
    (safe_read (mkRingbuffer Nat 2) 1).1
        = Except.error "cannot read more than available elements" :=
  ⟨rfl, rfl⟩

/-- C4 (amended): every value-returning read on an empty or
under-populated buffer fails with the out-of-range condition and leaves
the buffer state unchanged; `front` and single-element `read` carry
messages distinct from each other and from the bulk reads, while `read(n)`
and `safe_read(n)` share one bulk-read message. -/
theorem read_failure_spec {α : Type} [Inhabited α] (b : Ringbuffer α)
    (n : Nat) :
    (b.available = 0 →
      front b = Except.error "cannot access first of empty ringbuffer" ∧
      read1 b = (Except.error "invalid read on empty ringbuffer", b)) ∧
    (b.available < n →
      readN b n = (Except.error "cannot read more than available elements", b) ∧
      safe_read b n
          = (Except.error "cannot read more than available elements", b) ∧
      (readN b n).1 = (safe_read b n).1) ∧
    ("cannot access first of empty ringbuffer"
        ≠ "invalid read on empty ringbuffer" ∧
     "cannot access first of empty ringbuffer"
        ≠ "cannot read more than available elements" ∧
     "invalid read on empty ringbuffer"
        ≠ "cannot read more than available elements") := by
  refine ⟨?_, ?_, by decide, by decide, by decide⟩
  · intro h
    simp [front, read1, h]
  · intro h
    have hn : ¬ n ≤ b.available := by omega
    simp [readN, safe_read, hn]

/-- Witness for C4 on an empty capacity-2 buffer with `n = 1`. -/
theorem read_failure_spec_witness :
    front (mkRingbuffer Nat 2)
        = Except.error "cannot access first of empty ringbuffer" ∧
    readN (mkRingbuffer Nat 2) 1
        = (Except.error "cannot read more than available elements",
           mkRingbuffer Nat 2) :=
  ⟨((read_failure_spec (mkRingbuffer Nat 2) 1).1 rfl).1,
   ((read_failure_spec (mkRingbuffer Nat 2) 1).2.1 (by decide)).1⟩

/-- C1 (bug evidence): on a capacity-2 buffer holding `[10, 20]`, a
successful `read(1)` does return the single oldest element, but leaves
`size() = 0` instead of the claimed `2 - 1 = 1`, because the `size_t`
post-decrement `available--` in the loop condition also fires on the
exiting test; reading both elements (`n = size()`) leaves
`size() = 2 ^ 64 - 1` (the post-decrement underflows `0`). -/
theorem readN_count_bug :
    (readN (emplace (emplace (mkRingbuffer Nat 2) 10) 20) 1).1
        = Except.ok [10] ∧
    (readN (emplace (emplace (mkRingbuffer Nat 2) 10) 20) 1).2.readpos = 1 ∧
    (readN (emplace (emplace (mkRingbuffer Nat 2) 10) 20) 1).2.available
        = 0 ∧
    (readN (emplace (emplace (mkRingbuffer Nat 2) 10) 20) 2).2.available
        = 2 ^ 64 - 1 :=
  ⟨rfl, rfl, rfl, rfl⟩

/-- C2 (bug evidence): after the operation sequence `emplace 10`,
`emplace 20`, `read(1)` on a capacity-2 buffer — every step successful —
the data-model invariant is violated: the write cursor (`0`) no longer
equals the read cursor advanced by `available` (`wrapfront 2 1 0 = 1`),
and `available = 0` differs from the count `1` implied by the sequence,
because `read(1)` decremented the count by two. -/
theorem invariant_bug :
    wrapfront (readN (emplace (emplace (mkRingbuffer Nat 2) 10) 20) 1).2.cap
        (readN (emplace (emplace (mkRingbuffer Nat 2) 10) 20) 1).2.readpos
        (readN (emplace (emplace (mkRingbuffer Nat 2) 10) 20) 1).2.available
      ≠ (readN (emplace (emplace (mkRingbuffer Nat 2) 10) 20) 1).2.writepos ∧
    (readN (emplace (emplace (mkRingbuffer Nat 2) 10) 20) 1).2.available
      ≠ 1 :=
  ⟨by decide, by decide⟩

/-- C3 (bug evidence): on a capacity-2 buffer holding `[10, 20]`
(read cursor at `first`), the requested span of `safe_read(2)` reaches the
`last` slot, so `temporary_copy` takes its two-segment branch; that branch
copies `n - m + 1` elements (two too many) from the start of storage and
inserts them at the *front* of the copy, so `safe_read(2)` returns the
4-element sequence `[10, 20, 10, 20]` where `read(2)` returns the correct
`[10, 20]`. -/
theorem safe_read_copy_bug :
    (safe_read (emplace (emplace (mkRingbuffer Nat 2) 10) 20) 2).1
        = Except.ok [10, 20, 10, 20] ∧
    (readN (emplace (emplace (mkRingbuffer Nat 2) 10) 20) 2).1
        = Except.ok [10, 20] :=
  ⟨rfl, rfl⟩

/-- C8 (bug evidence): in the concurrent variant, `safe_read(n)` with
`n ≤ size()` never completes for a single caller: it acquires the writer
side of `rw_mutex` (holding the internal `std::mutex` for its whole
duration) and then `temporary_copy` opens a reader section whose
`mut.lock()` blocks on that same already-held non-recursive mutex —
self-deadlock. The single-threaded `safe_read` on the same state returns
normally. -/
theorem safe_read_deadlock_bug :
    atomicSafeRead (emplace (mkRingbuffer Nat 2) 10) 1 = none ∧
    (safe_read (emplace (mkRingbuffer Nat 2) 10) 1).1 = Except.ok [10] :=
  ⟨rfl, rfl⟩

/-- C9 (bug evidence): for a single caller the two variants agree on
`emplace`, `pop`, `front`, `read`, `read(n)`, `erase` and `clear` (the
concurrent versions acquire a free lock and then run the identical
algorithm), but their sequential semantics differ at `safe_read(n)`: the
single-threaded variant returns a value while the concurrent variant
self-deadlocks (never completes) on the same state. -/
theorem variant_equivalence_bug :
    (∀ (b : Ringbuffer Nat) (x : Nat), atomicEmplace b x = some (emplace b x)) ∧
    (∀ (b : Ringbuffer Nat), atomicPop b = some (pop b)) ∧
    (∀ (b : Ringbuffer Nat), atomicFront b = some (front b)) ∧
    (∀ (b : Ringbuffer Nat), atomicRead1 b = some (read1 b)) ∧
    (∀ (b : Ringbuffer Nat) (n : Nat), atomicReadN b n = some (readN b n)) ∧
    (∀ (b : Ringbuffer Nat) (n : Nat), atomicErase b n = some (erase b n)) ∧
    (∀ (b : Ringbuffer Nat), atomicClear b = some (clear b)) ∧
    atomicSafeRead (emplace (mkRingbuffer Nat 3) 11) 1 = none ∧
    (safe_read (emplace (mkRingbuffer Nat 3) 11) 1).1 = Except.ok [11] :=
  ⟨fun _ _ => rfl, fun _ => rfl, fun _ => rfl, fun _ => rfl, fun _ _ => rfl,
   fun _ _ => rfl, fun _ => rfl, rfl, rfl⟩

/-- C7: FIFO round trip. Inserting any list of elements into a freshly
constructed buffer of exactly that capacity and then calling `read_all()`
returns exactly those elements in insertion order; and in the concrete
wraparound scenario with capacity 4 — insert `[0,1,2,3]`, remove 2, insert
`[4,5]` — `read_all()` yields `[2,3,4,5]`, the 4 live elements in true
insertion order, even though the storage index wraps past the end. -/
theorem round_trip_spec :
    (∀ (l : List Nat),
      (read_all (emplaceAll (mkRingbuffer Nat l.length) l)).1
        = Except.ok l) ∧
    (read_all
        (emplaceAll (pop (pop (emplaceAll (mkRingbuffer Nat 4) [0, 1, 2, 3])))
          [4, 5])).1
      = Except.ok [2, 3, 4, 5] := by
  constructor
  · intro l
    have hmk :
        (⟨[] ++ List.replicate l.length default, 0, 0,
          List.length ([] : List Nat)⟩ : Ringbuffer Nat)
        = mkRingbuffer Nat l.length := rfl
    obtain ⟨hb, hr, ha⟩ := emplaceAll_fields l [] 0 (fun _ => rfl)
    rw [hmk] at hb hr ha
    rw [List.nil_append] at hb
    rw [List.length_nil, Nat.zero_add] at ha
    rw [read_all, readN_fst _ _ (le_refl _)]
    simp only [Ringbuffer.cap]
    rw [hb, hr, ha]
    rw [ringRead_no_wrap l l.length 0 (by omega)]
    simp
  · rfl

end RingbufferModel
